import Mathlib

/-!
Verification of the diagnostic-bridge and tool-orchestration subsystem of the
Veyra editor integration (`tools/vscode_extension/src/extension.ts` and
`tools/vscode_extension/src/toolManager.ts`).

The TypeScript functions are shallowly embedded as executable Lean functions:
  * `findTokenEnd`, `parseCompilerErrors` (with its four regex recognizers
    modelled as explicit backtracking matchers over `List Char`),
  * `validateDocument` (the completion handler's effect on the diagnostic
    collection, with the external process outcome made explicit),
  * the debounce handler of `setupDiagnostics` (`onChangeEvent`, `fireCount`),
  * `isExecutableAvailable` (extension.ts) with the spawn outcome explicit,
  * `findVeyraTool` (extension.ts) and `ToolManager.findTool` /
    `ToolManager.isExecutableAvailable` (toolManager.ts), with filesystem and
    probe state abstracted as environment functions and `path.join`/`dirname`
    modelled over segment lists.

Documents are modelled as `List String` (one entry per line, as exposed by
`document.lineCount` / `document.lineAt(i).text`); JS numbers on these code
paths are integers and are modelled as `Int`/`Nat`.
-/

namespace Veyra

/-! ### Character classes used by the regexes in extension.ts -/

/-- The JS `\s` class, restricted to the ASCII range (the only characters the
toolchain emits on these paths). -/
def isJsWs (c : Char) : Bool :=
  c = ' ' || c = '\t' || c = '\n' || c = '\r' || c = '\x0b' || c = '\x0c'

/-- The JS `.` (no `s` flag): any character except line terminators. -/
def isDotChar (c : Char) : Bool :=
  !(c = '\n' || c = '\r' || c = '\u2028' || c = '\u2029')

/-- The delimiter class `[{}()\[\];,.]` of `findTokenEnd`. -/
def isDelim (c : Char) : Bool :=
  c = '\x7b' || c = '\x7d' || c = '(' || c = ')' || c = '[' || c = ']' ||
  c = ';' || c = ',' || c = '.'

/-- The word class `[a-zA-Z0-9_]` of `findTokenEnd`. -/
def isWordChar (c : Char) : Bool :=
  (('a' ≤ c && c ≤ 'z') || ('A' ≤ c && c ≤ 'Z') || ('0' ≤ c && c ≤ '9') || c = '_')

/-- Length of the initial run of characters satisfying `p`. -/
def countWhile (p : Char → Bool) : List Char → Nat
  | [] => 0
  | c :: cs => if p c then countWhile p cs + 1 else 0

/-- JS `String.prototype.trim` (ASCII whitespace). -/
def trimJs (s : String) : String :=
  String.mk (((s.data.dropWhile isJsWs).reverse.dropWhile isJsWs).reverse)

/-- Lower-case a character list (ASCII, as produced by `toLowerCase` on the
messages the toolchain emits). -/
def lowerList (cs : List Char) : List Char := cs.map Char.toLower

/-- Whether `pre` is an initial segment of `cs`. -/
def startsWithList : List Char → List Char → Bool
  | [], _ => true
  | _ :: _, [] => false
  | a :: as, b :: bs => a == b && startsWithList as bs

/-- JS `String.prototype.includes` on character lists. -/
def containsSub (needle : List Char) : List Char → Bool
  | [] => startsWithList needle []
  | c :: cs => startsWithList needle (c :: cs) || containsSub needle cs

/-- The substring the severity heuristic looks for. -/
def warningKey : List Char := "warning".data

/-- The `lineAt` accessor: text of line `i`, empty for an index past the
document (VS Code documents always have at least one line, so the out-of-range
default is never exercised under the stated hypotheses). -/
def lineAt (doc : List String) (i : Nat) : String :=
  match doc[i]? with
  | some s => s
  | none => ""

/-! ### findTokenEnd (extension.ts lines 820-840) -/

/-- Embedding of `findTokenEnd(line, start)`: skip whitespace, a single
delimiter is a one-character token, otherwise take the maximal word run, and
never return less than `start + 1`. -/
def findTokenEnd (line : String) (start : Nat) : Nat :=
  let cs := line.data.drop start
  let w := countWhile isJsWs cs
  let cs2 := cs.drop w
  let e1 := start + w
  match cs2 with
  | [] => max e1 (start + 1)
  | c :: _ =>
    if isDelim c then e1 + 1
    else max (e1 + countWhile isWordChar cs2) (start + 1)

/-! ### Diagnostic records -/

inductive Severity where
  | error
  | warning
deriving DecidableEq

/-- A `vscode.Range`, 0-based. -/
structure Range where
  startLine : Nat
  startCol : Nat
  endLine : Nat
  endCol : Nat
deriving DecidableEq

/-- A `vscode.Diagnostic` as constructed by `parseCompilerErrors`. -/
structure Diagnostic where
  range : Range
  message : String
  severity : Severity
  source : String
deriving DecidableEq

/-- The `diagnostic.source` tag set by the extension. -/
def sourceTag : String := "veyra"

/-- The line clamp `Math.max(0, Math.min(line, document.lineCount - 1))` of
`parseCompilerErrors`. -/
def clampLine (doc : List String) (line : Int) : Nat :=
  (max 0 (min line ((doc.length : Int) - 1))).toNat

/-- The column clamp `Math.max(0, Math.min(column, lineText.length))` of
`parseCompilerErrors`. -/
def clampColumn (lineText : String) (column : Int) : Nat :=
  (max 0 (min column (lineText.length : Int))).toNat

/-- Embedding of the loop body of `parseCompilerErrors` (extension.ts lines
774-809): 1-based to 0-based conversion, clamping, range construction and the
severity heuristic, for one extracted `(line, column, message)` triple. -/
def mkDiagnostic (doc : List String) (l c : Nat) (rawMsg : String) : Diagnostic :=
  let line : Int := (l : Int) - 1
  let column : Int := (c : Int) - 1
  let message : String := trimJs rawMsg
  let validLine : Nat := clampLine doc line
  let lineText : String := lineAt doc validLine
  let validColumn : Nat := clampColumn lineText column
  let range : Range :=
    if validColumn < lineText.length then
      ⟨validLine, validColumn, validLine, findTokenEnd lineText validColumn⟩
    else
      ⟨validLine, 0, validLine, lineText.length⟩
  let severity : Severity :=
    if containsSub warningKey (lowerList message.data) then Severity.warning
    else Severity.error
  ⟨range, message, severity, sourceTag⟩

/-! ### Regex recognizers (extension.ts lines 759-768)

Each of the four patterns is embedded as an anchored matcher
`List Char → Option (Capture × List Char)` returning the captured
`(line, column, message)` triple and the input remaining after the match.
Greedy subpatterns followed by a literal that cannot start the repeated class
(`\s+error`, `(\d+),`, `[^"]+"`) are deterministic and modelled by maximal
runs; the only genuine backtracking in these regexes is between a greedy
trailing `\s+`/`\s*` and the lazy `(.+?)(?:\n|$)`, modelled by
`wsStarThenMsg`. -/

/-- Extracted `(line, column, message)` triple of one regex match. -/
abbrev Capture := Nat × Nat × String

/-- An anchored matcher: match at the head of the input, returning the capture
and the rest of the input after the match. -/
abbrev Matcher := List Char → Option (Capture × List Char)

/-- Case-insensitive literal (the `i` flag; ASCII folding). -/
def matchLitCI : List Char → List Char → Option (List Char)
  | [], cs => some cs
  | _ :: _, [] => none
  | p :: ps, c :: cs => if p.toLower == c.toLower then matchLitCI ps cs else none

/-- Case-sensitive literal. -/
def matchLitCS : List Char → List Char → Option (List Char)
  | [], cs => some cs
  | _ :: _, [] => none
  | p :: ps, c :: cs => if p == c then matchLitCS ps cs else none

/-- `\s+` when followed by a non-whitespace literal: the maximal run. -/
def matchWsPlus (cs : List Char) : Option (List Char) :=
  let w := countWhile isJsWs cs
  if w = 0 then none else some (cs.drop w)

/-- `\s*` when followed by a non-whitespace literal: the maximal run. -/
def matchWsStar (cs : List Char) : List Char :=
  cs.drop (countWhile isJsWs cs)

/-- `(\d+)` followed by a non-digit literal: the maximal digit run, with its
`parseInt` value. -/
def matchDigits (cs : List Char) : Option (Nat × List Char) :=
  let d := cs.takeWhile Char.isDigit
  if d.isEmpty then none
  else some (d.foldl (fun n c => n * 10 + (c.toNat - 48)) 0, cs.drop d.length)

/-- The lazy tail `(.+?)(?:\n|$)`: at least one `.`-character, stopping at the
first LF (consumed) or at the end of input; a CR or Unicode line separator
encountered first makes the whole tail fail, as `.` cannot match it and only
LF or end of input can terminate the lazy group. -/
def lazyMsg : List Char → Option (List Char × List Char)
  | [] => none
  | c :: cs =>
    if isDotChar c then
      match cs with
      | [] => some ([c], [])
      | d :: ds =>
        if d = '\n' then some ([c], ds)
        else (lazyMsg cs).map (fun r => (c :: r.1, r.2))
    else none

/-- `\s*(.+?)(?:\n|$)`: the greedy whitespace run is tried longest first, the
lazy message matcher serving as its continuation (regex backtracking). -/
def wsStarThenMsg : List Char → Option (List Char × List Char)
  | [] => none
  | c :: cs =>
    if isJsWs c then
      match wsStarThenMsg cs with
      | some r => some r
      | none => lazyMsg (c :: cs)
    else lazyMsg (c :: cs)

/-- `\s+(.+?)(?:\n|$)`: one mandatory whitespace character, then `wsStarThenMsg`. -/
def wsPlusThenMsg : List Char → Option (List Char × List Char)
  | [] => none
  | c :: cs => if isJsWs c then wsStarThenMsg cs else none

def kwError : List Char := "error".data
def kwAt : List Char := "at".data
def kwLine : List Char := "line".data
def kwColumn : List Char := "column".data
def kwLineColon : List Char := "line:".data
def kwColumnColon : List Char := "column:".data
def kwMessageColon : List Char := "message:".data
def chComma : List Char := ",".data
def chColon : List Char := ":".data
def chQuote : List Char := "\"".data
def chLBrace : List Char := "\x7b".data

/-- The shared suffix `\s+at\s+line\s+(\d+),\s+column\s+(\d+):\s+(.+?)(?:\n|$)`
of patterns 1 and 3. -/
def matchAtPart (cs0 : List Char) : Option (Capture × List Char) := do
  let a ← matchWsPlus cs0
  let b ← matchLitCI kwAt a
  let c ← matchWsPlus b
  let d ← matchLitCI kwLine c
  let e ← matchWsPlus d
  let (l, f) ← matchDigits e
  let g ← matchLitCS chComma f
  let h ← matchWsPlus g
  let i ← matchLitCI kwColumn h
  let j ← matchWsPlus i
  let (col, k) ← matchDigits j
  let m ← matchLitCS chColon k
  let (msg, rest) ← wsPlusThenMsg m
  pure ((l, col, String.mk msg), rest)

/-- The ordered keyword alternatives `(?:Lexer|Parser|Syntax|Parse)` of
pattern 1. -/
def kwAlts : List (List Char) :=
  ["Lexer".data, "Parser".data, "Syntax".data, "Parse".data]

/-- Pattern 1:
`(?:Lexer|Parser|Syntax|Parse)\s+error\s+at\s+line\s+(\d+),\s+column\s+(\d+):\s+(.+?)(?:\n|$)`
with flags `gi`. -/
def matchP1 (cs : List Char) : Option (Capture × List Char) :=
  kwAlts.findSome? fun kw => do
    let a ← matchLitCI kw cs
    let b ← matchWsPlus a
    let c ← matchLitCI kwError b
    matchAtPart c

/-- The struct-body suffix of pattern 2 after the keyword. -/
def matchP2Tail (cs0 : List Char) : Option (Capture × List Char) := do
  let a ← matchLitCS chLBrace (matchWsStar cs0)
  let b ← matchLitCS kwLineColon (matchWsStar a)
  let (l, c) ← matchDigits (matchWsStar b)
  let d ← matchLitCS chComma c
  let e ← matchLitCS kwColumnColon (matchWsStar d)
  let (col, f) ← matchDigits (matchWsStar e)
  let g ← matchLitCS chComma f
  let h ← matchLitCS kwMessageColon (matchWsStar g)
  let i ← matchLitCS chQuote (matchWsStar h)
  let msg := i.takeWhile (fun c => c ≠ '"')
  if msg.isEmpty then none
  else do
    let j ← matchLitCS chQuote (i.drop msg.length)
    pure ((l, col, String.mk msg), j)

/-- The ordered keyword alternatives `(?:ParseError|LexError)` of pattern 2. -/
def kwAlts2 : List (List Char) := ["ParseError".data, "LexError".data]

/-- Pattern 2:
`(?:ParseError|LexError)\s*{\s*line:\s*(\d+),\s*column:\s*(\d+),\s*message:\s*"([^"]+)"`
with flag `g` (case-sensitive). -/
def matchP2 (cs : List Char) : Option (Capture × List Char) :=
  kwAlts2.findSome? fun kw => (matchLitCS kw cs).bind matchP2Tail

/-- Pattern 3: `Error\s+at\s+line\s+(\d+),\s+column\s+(\d+):\s+(.+?)(?:\n|$)`
with flags `gi`. -/
def matchP3 (cs : List Char) : Option (Capture × List Char) :=
  (matchLitCI kwError cs).bind matchAtPart

def kwErrorColon : List Char := "error:".data

/-- Pattern 4: `error:\s*line\s+(\d+),\s+column\s+(\d+):\s*(.+?)(?:\n|$)` with
flags `gi`. -/
def matchP4 (cs : List Char) : Option (Capture × List Char) := do
  let a ← matchLitCI kwErrorColon cs
  let b ← matchLitCI kwLine (matchWsStar a)
  let c ← matchWsPlus b
  let (l, d) ← matchDigits c
  let e ← matchLitCS chComma d
  let f ← matchWsPlus e
  let g ← matchLitCI kwColumn f
  let h ← matchWsPlus g
  let (col, i) ← matchDigits h
  let j ← matchLitCS chColon i
  let (msg, rest) ← wsStarThenMsg j
  pure ((l, col, String.mk msg), rest)

/-- The ordered pattern table of `parseCompilerErrors`. -/
def patterns : List Matcher := [matchP1, matchP2, matchP3, matchP4]

/-! ### The global `exec` scan (`while ((match = pattern.exec(...)))`) -/

/-- One `g`-flag scan: repeatedly find the leftmost match at or after the
current index, record its start position and capture, and resume after the
matched text. `fuel` bounds the recursion (every step either consumes matched
text or advances one character). -/
def scanAux (m : Matcher) : Nat → Nat → List Char → List (Nat × Capture)
  | 0, _, _ => []
  | fuel + 1, pos, cs =>
    match m cs with
    | some (cap, rest) =>
        (pos, cap) :: scanAux m fuel (pos + (cs.length - rest.length)) rest
    | none =>
      match cs with
      | [] => []
      | _ :: t => scanAux m fuel (pos + 1) t

/-- All matches of one pattern over the text, leftmost first. -/
def scanPattern (m : Matcher) (cs : List Char) : List (Nat × Capture) :=
  scanAux m (cs.length + 1) 0 cs

/-- Embedding of `parseCompilerErrors(errorOutput, document)` (extension.ts
lines 747-818): every pattern is scanned over the full text in table order and
each extracted triple is turned into a diagnostic. -/
def parseCompilerErrors (errorOutput : String) (doc : List String) : List Diagnostic :=
  patterns.flatMap fun m =>
    (scanPattern m errorOutput.data).map fun pc =>
      mkDiagnostic doc pc.2.1 pc.2.2.1 pc.2.2.2

/-- The same computation keeping, for each diagnostic, the index of the pattern
that produced it and the start position of its match. -/
def parseCompilerErrorsTagged (errorOutput : String) (doc : List String) :
    List ((Nat × Nat) × Diagnostic) :=
  patterns.enum.flatMap fun im =>
    (scanPattern im.2 errorOutput.data).map fun pc =>
      ((im.1, pc.1), mkDiagnostic doc pc.2.1 pc.2.2.1 pc.2.2.2)

/-! ### validateDocument (extension.ts lines 717-745)

The external invocation `execAsync` resolves normally exactly when the
process spawns, does not time out, and exits with code zero; otherwise it
rejects with an error object carrying the captured `stderr`/`stdout` and a
`message`. The outcome is made explicit, and the effect of the completion
handler on the diagnostic collection (a map from document URI to its
diagnostic list) is the embedded function. -/

/-- Outcome of the `execAsync` invocation: `ok` iff the process exited with
code zero (the promise resolved); any non-zero exit, spawn failure or timeout
rejects with the error's `stderr`, `stdout` and `message` fields. -/
inductive ExecOutcome where
  | ok (stdout stderr : String)
  | err (stderr stdout message : String)
deriving DecidableEq

/-- The diagnostic collection: URI keyed lists of diagnostics. -/
abbrev DiagMap := List (String × List Diagnostic)

/-- `diagnosticCollection.delete(uri)`. -/
def mapDelete (uri : String) (m : DiagMap) : DiagMap :=
  m.filter fun e => !(e.1 == uri)

/-- `diagnosticCollection.set(uri, diagnostics)`. -/
def mapSet (uri : String) (ds : List Diagnostic) (m : DiagMap) : DiagMap :=
  (uri, ds) :: mapDelete uri m

/-- Current diagnostics of a document, if any entry is present. -/
def mapGet (uri : String) (m : DiagMap) : Option (List Diagnostic) :=
  (m.find? fun e => e.1 == uri).map fun e => e.2

/-- The text handed to `parseCompilerErrors` on a rejected invocation:
`error.stderr || error.stdout || error.message` (first truthy, i.e. first
non-empty, field). -/
def errText (stderr stdout message : String) : String :=
  if stderr ≠ "" then stderr else if stdout ≠ "" then stdout else message

/-- Embedding of one `validateDocument(document)` completion: without a
resolved compiler the document's diagnostics are cleared; a resolving
invocation (exit code zero) clears them; a rejecting invocation has its
output parsed and the result published. -/
def validateDocument (compilerPath : Option (List String)) (uri : String)
    (doc : List String) (outcome : ExecOutcome) (coll : DiagMap) : DiagMap :=
  match compilerPath with
  | none => mapDelete uri coll
  | some _ =>
    match outcome with
    | .ok _ _ => mapDelete uri coll
    | .err stderr stdout message =>
        mapSet uri (parseCompilerErrors (errText stderr stdout message) doc) coll

/-! ### The debounce handler of setupDiagnostics (extension.ts lines 676-689)

The handler closes over a single `timeoutId` variable shared by all
documents: `if (timeoutId) clearTimeout(timeoutId); timeoutId = setTimeout(
() => validateDocument(event.document), 500)`. The scheduling state is
therefore at most one pending `(document, deadline)` pair. -/

/-- The fixed debounce length (milliseconds). -/
def debounceMs : Nat := 500

/-- The language id guarding all handlers. -/
def veyraLang : String := "veyra"

/-- Scheduler state: the single shared timer, as the document whose
validation it would run and the time at which it fires. -/
structure SchedState where
  pending : Option (String × Nat)
deriving DecidableEq

/-- Embedding of the `onDidChangeTextDocument` handler at time `now`: for a
Veyra document the armed timer (whichever document it belonged to) is
cleared and a new one armed for the changed document. -/
def onChangeEvent (now : Nat) (uri lang : String) (st : SchedState) : SchedState :=
  if lang == veyraLang then ⟨some (uri, now + debounceMs)⟩ else st

/-- Number of `validateDocument` invocations over a burst of change events
(`(time, uri)` pairs in arrival order, all for Veyra documents): an armed
timer fires when its deadline precedes the next event, and an armed timer
left at the end of the burst fires once the burst settles. -/
def fireCount : SchedState → List (Nat × String) → Nat
  | st, [] =>
    match st.pending with
    | some _ => 1
    | none => 0
  | st, (t, u) :: rest =>
    match st.pending with
    | some p =>
      if p.2 ≤ t then 1 + fireCount (onChangeEvent t u veyraLang ⟨none⟩) rest
      else fireCount (onChangeEvent t u veyraLang st) rest
    | none => fireCount (onChangeEvent t u veyraLang st) rest

/-! ### isExecutableAvailable (extension.ts lines 1007-1021)

`execSync("<path> --help", { stdio: 'ignore', timeout: 5000 })` returns
normally exactly when the child spawns and exits with code zero within the
timeout; a non-zero exit status, ENOENT, a permission error or timeout
expiry all throw, landing in the `catch` that returns `false`. -/

/-- Outcome of the probing `--help` invocation. -/
inductive SpawnOutcome where
  | exit (code : Int)
  | enoent
  | eacces
  | timedOut
deriving DecidableEq

/-- Embedding of `isExecutableAvailable(executablePath)`: `isAbs` is
`path.isAbsolute(executablePath)`, `fsExists` is `fs.existsSync` on it, and
`outcome` the help invocation's result. Total: every outcome maps to a
boolean, never an exception. -/
def isExecutableAvailable (isAbs fsExists : Bool) (outcome : SpawnOutcome) : Bool :=
  if isAbs && !fsExists then false
  else
    match outcome with
    | .exit code => code == 0
    | _ => false

/-! ### findVeyraTool (extension.ts lines 1025-1070)

Filesystem paths are modelled as segment lists (`path.join` appends
segments, `path.dirname` drops the last segment and is the identity at the
root), and the per-candidate result of `isExecutableAvailable` is abstracted
as the environment's `probe`. -/

/-- `path.dirname` on a segment list. -/
def dirname (p : List String) : List String :=
  if p.length ≤ 1 then p else p.dropLast

/-- Environment of a `findVeyraTool` call: the open workspace folders, the
configured `veyra.<tool>Path` override (`none` when unset or empty, the
falsy cases), and the availability probe. -/
structure ToolEnv where
  workspaceFolders : List (List String)
  configuredPath : Option (List String)
  probe : List String → Bool

/-- The windows executable name used for build-output candidates. -/
def exeName (toolName : String) : String := toolName ++ ".exe"

/-- The six ancestor build-output candidates pushed for one workspace folder
(nearest ancestor first, release before debug, three levels). -/
def ancestorCandidates (ws : List String) (toolName : String) : List (List String) :=
  let p1 := dirname ws
  let p2 := dirname p1
  let p3 := dirname p2
  [p1 ++ ["tools", "target", "release", exeName toolName],
   p1 ++ ["tools", "target", "debug", exeName toolName],
   p2 ++ ["tools", "target", "release", exeName toolName],
   p2 ++ ["tools", "target", "debug", exeName toolName],
   p3 ++ ["tools", "target", "release", exeName toolName],
   p3 ++ ["tools", "target", "debug", exeName toolName]]

/-- The candidates pushed for one workspace folder: its four build-output
locations (tools/target before target, release before debug), then its
ancestor candidates. -/
def workspaceCandidates (ws : List String) (toolName : String) : List (List String) :=
  [ws ++ ["tools", "target", "release", exeName toolName],
   ws ++ ["tools", "target", "debug", exeName toolName],
   ws ++ ["target", "release", exeName toolName],
   ws ++ ["target", "debug", exeName toolName]]
  ++ ancestorCandidates ws toolName

/-- Embedding of `findVeyraTool(toolName)`: the candidate list starts with
the bare names (PATH lookup), is extended per workspace folder, the
configured override is unshifted to the front when set, and the first
candidate accepted by the probe is returned. -/
def findVeyraTool (env : ToolEnv) (toolName : String) : Option (List String) :=
  let base := [[toolName], [exeName toolName]]
  let withWs := base ++ env.workspaceFolders.flatMap (workspaceCandidates · toolName)
  let possiblePaths :=
    match env.configuredPath with
    | some cfg => cfg :: withWs
    | none => withWs
  possiblePaths.find? env.probe

namespace ToolManager

/-! ### ToolManager.findTool / isExecutableAvailable (toolManager.ts 27-74) -/

/-- Environment of a `ToolManager.findTool` call: the platform, the first
workspace folder, the configured override (`undefined`/empty are falsy →
`none`), and the filesystem answer `existsSync(p) && statSync(p).isFile()`
(false as well when those throw). -/
structure Env where
  isWin32 : Bool
  workspaceFolder : Option (List String)
  configuredPath : Option (List String)
  fileExists : List String → Bool

/-- Whether a segment-list path is absolute (POSIX model: leading empty
segment before the root separator). -/
def isAbsolutePath (p : List String) : Bool :=
  match p with
  | firstSeg :: _ => firstSeg == ""
  | [] => false

/-- Whether the path string contains a separator: more than one segment. -/
def hasSeparator (p : List String) : Bool := 2 ≤ p.length

/-- Embedding of `ToolManager.isExecutableAvailable`: a bare name (neither
absolute nor containing a separator) is reported available without probing;
anything else is checked against the filesystem. -/
def isExecutableAvailable (env : Env) (p : List String) : Bool :=
  if !isAbsolutePath p && !hasSeparator p then true
  else env.fileExists p

/-- Embedding of `ToolManager.findTool(toolName)`: workspace release then
debug build outputs, then the configured override, then the bare name, the
first candidate `isExecutableAvailable` accepts winning. -/
def findTool (env : Env) (toolName : String) : Option (List String) :=
  let execName := if env.isWin32 then toolName ++ ".exe" else toolName
  let wsPaths :=
    match env.workspaceFolder with
    | some ws =>
        [ws ++ ["tools", "target", "release", execName],
         ws ++ ["tools", "target", "debug", execName]]
    | none => []
  let cfgPaths :=
    match env.configuredPath with
    | some cfg => [cfg]
    | none => []
  let searchPaths := wsPaths ++ cfgPaths ++ [[toolName]]
  searchPaths.find? (isExecutableAvailable env)

end ToolManager

/-! ## Concrete inputs used by the counterexamples and witnesses -/

/-- The spec's sample toolchain output. -/
def c1Input : String := "Lexer error at line 5, column 3: Unexpected character '&'"

/-- The message its recognizers extract. -/
def c1Msg : String := "Unexpected character '&'"

/-- A concrete 10-line document. -/
def doc10 : List String :=
  ["fn main() \x7b", "  let a = 1", "  let b = 2", "  print(a)",
   "let x = foo;", "  let d = 4", "  let e = 5", "  print(d)",
   "  print(e)", "\x7d"]

def uriA : String := "file:a.vey"
def uriB : String := "file:b.vey"
def veycPath : List String := ["veyc"]
def emptyText : String := ""

/-! ## C2: tool-resolution candidate ordering -/

def fmtTool : String := "veyra-fmt"
def lintTool : String := "veyra-lint"
def c2Ws : List String := ["", "home", "ws"]
def c2Cfg : List String := ["", "opt", "veyra-fmt"]
def c2WsRelease : List String := c2Ws ++ ["tools", "target", "release", fmtTool]

/-- An environment whose filesystem holds both the configured override and the
workspace release binary. -/
def c2Env : ToolManager.Env :=
  ⟨false, some c2Ws, some c2Cfg, fun p => p == c2WsRelease || p == c2Cfg⟩

/-- Claim C2 is false on `ToolManager.findTool`: with a configured override
pointing at a valid executable and a valid workspace release binary of the
same tool, resolution returns the workspace release path, not the override —
`ToolManager.findTool` probes the workspace build outputs before the
configured override. -/
theorem c2_counterexample :
    ToolManager.isExecutableAvailable c2Env c2Cfg = true ∧
    ToolManager.findTool c2Env fmtTool = some c2WsRelease ∧
    c2WsRelease ≠ c2Cfg := by decide

/-- C2 amended: `findVeyraTool` (extension.ts) resolves in the claimed
deterministic priority order — configured override first, then the bare names
(PATH), then the workspace build outputs (release before debug), then the
ancestor build outputs (nearest first, three levels) — returning the first
probe-accepted candidate, so a probe-accepted override is always the result
there; `ToolManager.findTool` (toolManager.ts) instead probes the workspace
release/debug outputs before the configured override and the bare name last. -/
theorem c2_amended (ws cfg : List String) (t : String) (probe : List String → Bool)
    (hp : probe cfg = true) :
    findVeyraTool ⟨[ws], some cfg, probe⟩ t = some cfg ∧
    findVeyraTool ⟨[ws], none, probe⟩ t =
      ([[t], [exeName t]] ++ workspaceCandidates ws t).find? probe := by
  refine ⟨?_, rfl⟩
  simp only [findVeyraTool]
  exact List.find?_cons_of_pos _ hp

def c2wWs : List String := ["", "w"]
def c2wCfg : List String := ["", "cfg", "veyra-lint"]
def c2wProbe : List String → Bool := fun p => p == c2wCfg

/-- Witness for `c2_amended` at a concrete environment. -/
theorem c2_amended_witness :
    findVeyraTool ⟨[c2wWs], some c2wCfg, c2wProbe⟩ lintTool = some c2wCfg ∧
    findVeyraTool ⟨[c2wWs], none, c2wProbe⟩ lintTool =
      ([[lintTool], [exeName lintTool]] ++ workspaceCandidates c2wWs lintTool).find? c2wProbe :=
  c2_amended c2wWs c2wCfg lintTool c2wProbe (by decide)

/-! ## C3: diagnostic production and the exit code -/

def c3ErrText : String := "Lexer error at line 1, column 1: boom"
def c3Doc : List String := ["x"]
def oldMsg : String := "old"
def c3Coll : DiagMap := [(uriA, [mkDiagnostic c3Doc 1 1 oldMsg])]

/-- Claim C3 is false on the code: an invocation that exits with code zero but
whose stderr contains recognizable error text has the document's diagnostics
cleared (the entry is deleted), even though the parser would extract
diagnostics from that text — `validateDocument` branches on the `try`/`catch`
of `execAsync`, which rejects exactly on non-zero exit. -/
theorem c3_counterexample :
    mapGet uriA
      (validateDocument (some veycPath) uriA c3Doc
        (ExecOutcome.ok emptyText c3ErrText) c3Coll) = none ∧
    parseCompilerErrors c3ErrText c3Doc ≠ [] := by decide

/-- C3 amended: diagnostic production branches on whether the invocation
rejected. A resolving invocation (exit code zero) always clears the
document's diagnostics, whatever its output; only a rejecting invocation
(non-zero exit, spawn failure, timeout) has `error.stderr || error.stdout ||
error.message` parsed and the result published. -/
theorem c3_amended (p : List String) (uri : String) (doc : List String)
    (stdout stderr : String) (coll : DiagMap) :
    validateDocument (some p) uri doc (ExecOutcome.ok stdout stderr) coll =
      mapDelete uri coll ∧
    ∀ se so msg,
      validateDocument (some p) uri doc (ExecOutcome.err se so msg) coll =
        mapSet uri (parseCompilerErrors (errText se so msg) doc) coll :=
  ⟨rfl, fun _ _ _ => rfl⟩

/-! ## C4: the availability probe and the help invocation's exit status -/

/-- Claim C4 is false on the code: the probe on a PATH-resolvable name whose
`--help` invocation exits with status 1 (a non-crash, non-zero exit) returns
`false`, not `true` — `execSync` throws on any non-zero exit status, landing
in the `catch` that returns `false`. -/
theorem c4_counterexample :
    isExecutableAvailable false true (SpawnOutcome.exit 1) = false := by decide

/-- C4 amended: the probe is total (every outcome maps to a boolean, no
exception reaches the caller) and returns `true` exactly when the absolute
path exists (when absolute) and the help invocation exits with status zero;
a non-zero exit, ENOENT, a permission error and a timeout all yield `false`. -/
theorem c4_amended (isAbs fsExists : Bool) (o : SpawnOutcome) :
    isExecutableAvailable isAbs fsExists o = true ↔
      ((isAbs = true → fsExists = true) ∧ o = SpawnOutcome.exit 0) := by
  cases o <;> cases isAbs <;> cases fsExists <;>
    simp [isExecutableAvailable]

/-! ## C5: stale completions and publication order -/

def c5StaleText : String := "Lexer error at line 1, column 1: stale"
def c5NewText : String := "Lexer error at line 2, column 2: newer"
def c5Doc : List String := ["ab", "cd"]
def c5OutStale : ExecOutcome := ExecOutcome.err c5StaleText emptyText emptyText
def c5OutNew : ExecOutcome := ExecOutcome.err c5NewText emptyText emptyText

/-- Claim C5 is false on the code: when the newer run's completion publishes
first and the stale run's completion arrives afterwards, the stale
diagnostics replace the newer ones — `validateDocument` carries no sequence
number and applies every completion unconditionally. -/
theorem c5_counterexample :
    mapGet uriA
      (validateDocument (some veycPath) uriA c5Doc c5OutStale
        (validateDocument (some veycPath) uriA c5Doc c5OutNew [])) =
      some (parseCompilerErrors c5StaleText c5Doc) ∧
    parseCompilerErrors c5StaleText c5Doc ≠ parseCompilerErrors c5NewText c5Doc := by
  decide

lemma mapGet_mapDelete (uri : String) (m : DiagMap) :
    mapGet uri (mapDelete uri m) = none := by
  induction m with
  | nil => rfl
  | cons e t ih =>
    by_cases h : e.1 = uri
    · rw [show mapDelete uri (e :: t) = mapDelete uri t by
        simp [mapDelete, List.filter_cons, h]]
      exact ih
    · rw [show mapDelete uri (e :: t) = e :: mapDelete uri t by
        simp [mapDelete, List.filter_cons, h]]
      rw [show mapGet uri (e :: mapDelete uri t) = mapGet uri (mapDelete uri t) by
        simp [mapGet, List.find?_cons, h]]
      exact ih

lemma mapGet_mapSet (uri : String) (ds : List Diagnostic) (m : DiagMap) :
    mapGet uri (mapSet uri ds m) = some ds := by
  simp [mapGet, mapSet, List.find?]

/-- C5 amended: completions are applied unconditionally in arrival order with
no per-run sequence tagging, so the document's published entry after a
completion is determined by that completion alone — the last completion to
arrive wins, whether or not it belongs to the newest run. -/
theorem c5_amended (cp : Option (List String)) (uri : String) (doc : List String)
    (o : ExecOutcome) (coll coll' : DiagMap) :
    mapGet uri (validateDocument cp uri doc o coll) =
      mapGet uri (validateDocument cp uri doc o coll') := by
  cases cp with
  | none => simp [validateDocument, mapGet_mapDelete]
  | some p =>
    cases o with
    | ok stdout stderr => simp [validateDocument, mapGet_mapDelete]
    | err se so msg => simp [validateDocument, mapGet_mapSet]

/-! ## C6: scheduling state is shared, not per document -/

/-- Claim C6 is false on the code: with document A's validation pending
(timer armed to fire at 600), a change event on a different document B at
time 200 leaves B's validation as the only pending one — the single shared
`timeoutId` means B's event cancelled A's armed timer. -/
theorem c6_counterexample :
    (onChangeEvent 200 uriB veyraLang ⟨some (uriA, 600)⟩).pending =
      some (uriB, 700) ∧
    uriB ≠ uriA := by decide

/-- C6 amended: the debounce state is one shared timer for all documents: a
change event on any Veyra document replaces whatever validation was pending —
for whichever document — with a fresh timer for the changed document, so at
most one document ever has a pending debounced validation. -/
theorem c6_amended (now : Nat) (uri : String) (st : SchedState) :
    onChangeEvent now uri veyraLang st = ⟨some (uri, now + debounceMs)⟩ := by
  simp [onChangeEvent]

/-! ## C7: debounce of a burst of three change events -/

/-- Claim C7: three change events on the same document, each arriving before
the previously armed timer's deadline, produce exactly one `validateDocument`
invocation once the burst settles — each event cancels the previous timer and
arms a new one. -/
theorem c7_debounce (u : String) (t1 t2 t3 : Nat) (h12 : t1 ≤ t2) (h23 : t2 ≤ t3)
    (hb2 : t2 < t1 + debounceMs) (hb3 : t3 < t2 + debounceMs) :
    fireCount ⟨none⟩ [(t1, u), (t2, u), (t3, u)] = 1 := by
  have h2 : ¬(t1 + debounceMs ≤ t2) := by omega
  have h3 : ¬(t2 + debounceMs ≤ t3) := by omega
  simp [fireCount, onChangeEvent, h2, h3]

/-- Witness for `c7_debounce` at a concrete burst. -/
theorem c7_debounce_witness :
    fireCount ⟨none⟩ [(0, uriA), (100, uriA), (200, uriA)] = 1 :=
  c7_debounce uriA 0 100 200 (by decide) (by decide) (by decide) (by decide)

/-! ## C1: the spec's sample input -/

/-- Claim C1 is false on the code: the sample output line is matched both by
pattern 1 (`Lexer ... error at line ...`) and by the case-insensitive
pattern 3 (whose `Error at line` matches the `error at line` substring), so
the parser yields two diagnostics for it, not exactly one. -/
theorem c1_counterexample :
    (parseCompilerErrors c1Input doc10).length = 2 ∧
    (parseCompilerErrors c1Input doc10).length ≠ 1 := by decide

/-- On any document, the sample input produces exactly the two identical
diagnostics extracted from the triple `(5, 3, c1Msg)`. -/
lemma parse_c1Input (doc : List String) :
    parseCompilerErrors c1Input doc =
      [mkDiagnostic doc 5 3 c1Msg, mkDiagnostic doc 5 3 c1Msg] := rfl

/-- Evaluation of the extracted triple against a 10-line document whose line
index 4 is at least three characters long. -/
lemma c1_mk (doc : List String) (h10 : doc.length = 10)
    (h4 : 3 ≤ (lineAt doc 4).length) :
    mkDiagnostic doc 5 3 c1Msg =
      ⟨⟨4, 2, 4, findTokenEnd (lineAt doc 4) 2⟩, c1Msg, Severity.error, sourceTag⟩ := by
  simp only [mkDiagnostic]
  have hL : clampLine doc (((5 : Nat) : Int) - 1) = 4 := by
    simp only [clampLine, h10]
    omega
  rw [hL]
  have hC : clampColumn (lineAt doc 4) (((3 : Nat) : Int) - 1) = 2 := by
    simp only [clampColumn]
    omega
  rw [hC]
  rw [if_pos (show 2 < (lineAt doc 4).length by omega)]
  rw [show trimJs c1Msg = c1Msg by decide]
  rw [if_neg (show ¬(containsSub warningKey (lowerList c1Msg.data) = true) by decide)]

/-- C1 amended: for the input `"Lexer error at line 5, column 3: Unexpected
character '&'"` against a 10-line document (whose reported line is wide
enough to carry the reported column), the parser yields exactly two
diagnostics — one per matching recognizer — each with 0-based range starting
at line 4, column 2, severity Error and message
`"Unexpected character '&'"`. -/
theorem c1_amended (doc : List String) (h10 : doc.length = 10)
    (h4 : 3 ≤ (lineAt doc 4).length) :
    (parseCompilerErrors c1Input doc).length = 2 ∧
    ∀ d ∈ parseCompilerErrors c1Input doc,
      d.range.startLine = 4 ∧ d.range.startCol = 2 ∧
      d.severity = Severity.error ∧ d.message = c1Msg := by
  rw [parse_c1Input, c1_mk doc h10 h4]
  refine ⟨rfl, ?_⟩
  intro d hd
  rcases List.mem_cons.mp hd with rfl | hd'
  · exact ⟨rfl, rfl, rfl, rfl⟩
  · rcases List.mem_cons.mp hd' with rfl | hd''
    · exact ⟨rfl, rfl, rfl, rfl⟩
    · cases hd''

/-- Witness for `c1_amended` at the concrete 10-line document. -/
theorem c1_amended_witness :
    (parseCompilerErrors c1Input doc10).length = 2 ∧
    ∀ d ∈ parseCompilerErrors c1Input doc10,
      d.range.startLine = 4 ∧ d.range.startCol = 2 ∧
      d.severity = Severity.error ∧ d.message = c1Msg :=
  c1_amended doc10 (by decide) (by decide)

/-! ## C8: position conversion and clamping -/

/-- Claim C8: each extracted `(line, column)` pair is converted from the
1-based tool convention by subtracting one and clamped — the emitted line to
`[0, documentLineCount - 1]` (stated over `Nat`, whose truncated subtraction
realises the `Math.max(0, ·)`), the column to `[0, length of the clamped
line]` — and a reported line index at or beyond the line count yields a
diagnostic on line `documentLineCount - 1`. -/
theorem c8_clamping (doc : List String) (l c : Nat) (msg : String) (h : doc ≠ []) :
    (mkDiagnostic doc l c msg).range.startLine = min (l - 1) (doc.length - 1) ∧
    clampColumn (lineAt doc (min (l - 1) (doc.length - 1))) ((c : Int) - 1) =
      min (c - 1) (lineAt doc (min (l - 1) (doc.length - 1))).length ∧
    (doc.length ≤ l → (mkDiagnostic doc l c msg).range.startLine = doc.length - 1) := by
  have hpos : 1 ≤ doc.length := List.length_pos.mpr h
  have hL : (mkDiagnostic doc l c msg).range.startLine = clampLine doc ((l : Int) - 1) := by
    simp only [mkDiagnostic]
    split <;> rfl
  have hcl : clampLine doc ((l : Int) - 1) = min (l - 1) (doc.length - 1) := by
    simp only [clampLine]
    omega
  have hcc : ∀ t : String, clampColumn t ((c : Int) - 1) = min (c - 1) t.length := by
    intro t
    simp only [clampColumn]
    omega
  refine ⟨by rw [hL, hcl], hcc _, ?_⟩
  intro hle
  rw [hL, hcl]
  omega

/-- Witness for `c8_clamping`: a reported line index 7 against a 2-line
document. -/
theorem c8_clamping_witness :
    (mkDiagnostic c5Doc 7 1 oldMsg).range.startLine = min (7 - 1) (c5Doc.length - 1) ∧
    clampColumn (lineAt c5Doc (min (7 - 1) (c5Doc.length - 1))) ((1 : Int) - 1) =
      min (1 - 1) (lineAt c5Doc (min (7 - 1) (c5Doc.length - 1))).length ∧
    (c5Doc.length ≤ 7 → (mkDiagnostic c5Doc 7 1 oldMsg).range.startLine = c5Doc.length - 1) :=
  c8_clamping c5Doc 7 1 oldMsg (by decide)

/-! ## C9: determinism and output order of the parser -/

/-- Order on `(pattern index, match position)` tags: earlier pattern first,
then earlier match position. -/
def lexLE (a b : Nat × Nat) : Prop :=
  a.1 < b.1 ∨ (a.1 = b.1 ∧ a.2 ≤ b.2)

/-- All matches produced by one scan carry positions at or after the scan's
starting index, and their positions are non-decreasing along the list. -/
lemma scanAux_bound_chain (m : Matcher) :
    ∀ (fuel pos : Nat) (cs : List Char),
      (∀ x ∈ scanAux m fuel pos cs, pos ≤ x.1) ∧
      List.Chain' (fun a b : Nat × Capture => a.1 ≤ b.1) (scanAux m fuel pos cs) := by
  intro fuel
  induction fuel with
  | zero => intro pos cs; simp [scanAux]
  | succ n ih =>
    intro pos cs
    simp only [scanAux]
    cases hm : m cs with
    | none =>
      cases cs with
      | nil => simp
      | cons c t =>
        refine ⟨?_, (ih (pos + 1) t).2⟩
        intro x hx
        have := (ih (pos + 1) t).1 x hx
        omega
    | some pr =>
      obtain ⟨cap, rest⟩ := pr
      constructor
      · intro x hx
        rcases List.mem_cons.mp hx with rfl | hx'
        · simp
        · have := (ih (pos + (cs.length - rest.length)) rest).1 x hx'
          omega
      · refine List.chain'_cons'.mpr ⟨?_, (ih (pos + (cs.length - rest.length)) rest).2⟩
        intro y hy
        have hmem : y ∈ scanAux m n (pos + (cs.length - rest.length)) rest :=
          List.mem_of_mem_head? hy
        have := (ih (pos + (cs.length - rest.length)) rest).1 y hmem
        simp only
        omega

/-- The `(pattern index, match position)` tags contributed by one enumerated
pattern. -/
def tagsOf (cs : List Char) (im : Nat × Matcher) : List (Nat × Nat) :=
  (scanPattern im.2 cs).map fun pc => (im.1, pc.1)

/-- Every tag produced from patterns enumerated from index `k` has first
component at least `k`. -/
lemma tags_lb (cs : List Char) :
    ∀ (ms : List Matcher) (k : Nat) x,
      x ∈ (List.enumFrom k ms).flatMap (tagsOf cs) → k ≤ x.1 := by
  intro ms
  induction ms with
  | nil => simp
  | cons m rest ih =>
    intro k x hx
    simp only [List.enumFrom, List.flatMap_cons] at hx
    rcases List.mem_append.mp hx with h | h
    · simp only [tagsOf, List.mem_map] at h
      rcases h with ⟨pc, _, rfl⟩
      simp
    · have := ih (k + 1) x h
      omega

/-- The tag list of an enumerated pattern table is sorted: pattern index
first, match position second. -/
lemma tags_chain (cs : List Char) :
    ∀ (ms : List Matcher) (k : Nat),
      List.Chain' lexLE ((List.enumFrom k ms).flatMap (tagsOf cs)) := by
  intro ms
  induction ms with
  | nil => simp
  | cons m rest ih =>
    intro k
    simp only [List.enumFrom, List.flatMap_cons]
    apply List.Chain'.append
    · have hb := (scanAux_bound_chain m (cs.length + 1) 0 cs).2
      simp only [tagsOf]
      rw [List.chain'_map]
      refine hb.imp ?_
      intro a b hab
      exact Or.inr ⟨rfl, hab⟩
    · exact ih (k + 1)
    · intro x hx y hy
      have hxm : x ∈ tagsOf cs (k, m) := List.mem_of_mem_getLast? hx
      have hym : y ∈ (List.enumFrom (k + 1) rest).flatMap (tagsOf cs) :=
        List.mem_of_mem_head? hy
      have hy1 := tags_lb cs rest (k + 1) y hym
      simp only [tagsOf, List.mem_map] at hxm
      rcases hxm with ⟨pc, _, rfl⟩
      exact Or.inl (by simpa using hy1)

/-- Dropping the tags of the tagged parse gives the parse. -/
lemma tagged_snd (out : String) (doc : List String) :
    (parseCompilerErrorsTagged out doc).map Prod.snd = parseCompilerErrors out doc := by
  simp only [parseCompilerErrorsTagged, List.map_flatMap, List.map_map]
  rfl

/-- The tags of the tagged parse are the tags of the enumerated pattern
table. -/
lemma tagged_fst (out : String) (doc : List String) :
    (parseCompilerErrorsTagged out doc).map Prod.fst =
      patterns.enum.flatMap (tagsOf out.data) := by
  simp only [parseCompilerErrorsTagged, List.map_flatMap, List.map_map]
  rfl

/-- Claim C9: the parser is deterministic — parsing the same raw text against
the same document twice yields identical diagnostic sequences — and its output
order is exhibited by the tagged parse: the diagnostics are those of the
tagged parse in order, whose `(pattern index, match position)` tags are sorted
lexicographically (position of the recognizer in the pattern table first,
position of the match in the text second). -/
theorem c9_deterministic_ordered (out : String) (doc : List String) :
    parseCompilerErrors out doc = parseCompilerErrors out doc ∧
    parseCompilerErrors out doc = (parseCompilerErrorsTagged out doc).map Prod.snd ∧
    List.Chain' lexLE ((parseCompilerErrorsTagged out doc).map Prod.fst) := by
  refine ⟨rfl, (tagged_snd out doc).symm, ?_⟩
  rw [tagged_fst]
  exact tags_chain out.data patterns 0

/-! ## C10: emitted ranges stay inside the document -/

/-- A diagnostic whose range lies on a single document line, with ordered
columns bounded by that line's length. -/
def WithinDoc (doc : List String) (d : Diagnostic) : Prop :=
  d.range.endLine = d.range.startLine ∧
  d.range.startLine ≤ doc.length - 1 ∧
  d.range.startCol ≤ d.range.endCol ∧
  d.range.endCol ≤ (lineAt doc d.range.startLine).length ∧
  (d.range.startCol < (lineAt doc d.range.startLine).length →
    d.range.startCol + 1 ≤ d.range.endCol)

lemma countWhile_le (p : Char → Bool) (cs : List Char) : countWhile p cs ≤ cs.length := by
  induction cs with
  | nil => simp [countWhile]
  | cons c t ih =>
    simp only [countWhile, List.length_cons]
    split <;> omega

/-- The token-end computation never returns less than `start + 1`. -/
lemma findTokenEnd_ge (line : String) (start : Nat) :
    start + 1 ≤ findTokenEnd line start := by
  simp only [findTokenEnd]
  split
  · omega
  · split <;> omega

/-- The token-end computation never exceeds the line length when it starts
strictly inside the line. -/
lemma findTokenEnd_le (line : String) (start : Nat) (h : start < line.length) :
    findTokenEnd line start ≤ line.length := by
  have hlen : line.data.length = line.length := rfl
  have h1 := countWhile_le isJsWs (line.data.drop start)
  have h2 := countWhile_le isWordChar
    ((line.data.drop start).drop (countWhile isJsWs (line.data.drop start)))
  have h3 : (line.data.drop start).length = line.data.length - start :=
    List.length_drop start line.data
  have h4 : ((line.data.drop start).drop (countWhile isJsWs (line.data.drop start))).length
      = (line.data.drop start).length - countWhile isJsWs (line.data.drop start) :=
    List.length_drop _ _
  simp only [findTokenEnd]
  split
  · omega
  · next c rest heq =>
    have h5 : ((line.data.drop start).drop (countWhile isJsWs (line.data.drop start))).length
        = rest.length + 1 := by rw [heq]; simp
    split <;> omega

/-- Every diagnostic constructed from an extracted triple satisfies the range
invariant. -/
lemma mkDiagnostic_within (doc : List String) (l c : Nat) (msg : String)
    (h : doc ≠ []) : WithinDoc doc (mkDiagnostic doc l c msg) := by
  have hpos : 1 ≤ doc.length := List.length_pos.mpr h
  have hcl : clampLine doc ((l : Int) - 1) ≤ doc.length - 1 := by
    simp only [clampLine]; omega
  simp only [mkDiagnostic, WithinDoc]
  split
  · next hb =>
    dsimp only
    refine ⟨rfl, hcl, ?_, ?_, ?_⟩
    · have := findTokenEnd_ge (lineAt doc (clampLine doc ((l : Int) - 1)))
        (clampColumn (lineAt doc (clampLine doc ((l : Int) - 1))) ((c : Int) - 1))
      omega
    · exact findTokenEnd_le _ _ hb
    · intro _
      exact findTokenEnd_ge _ _
  · next hb =>
    dsimp only
    refine ⟨rfl, hcl, ?_, ?_, ?_⟩
    · simp
    · simp
    · intro h0; omega

/-- Claim C10: every diagnostic emitted by the parser has a range confined to
a single existing line of the document, with ordered columns bounded by that
line's length, and a start column strictly inside the line gives a range at
least one character wide. -/
theorem c10_ranges (out : String) (doc : List String) (h : doc ≠ []) :
    ∀ d ∈ parseCompilerErrors out doc, WithinDoc doc d := by
  intro d hd
  simp only [parseCompilerErrors, List.mem_flatMap, List.mem_map] at hd
  rcases hd with ⟨m, hm, pc, hpc, rfl⟩
  exact mkDiagnostic_within doc _ _ _ h

def xMsg : String := "x"
def c10Out : String := "Error at line 1, column 1: x"
def c10Doc : List String := ["ab"]
def c10Diag : Diagnostic := ⟨⟨0, 0, 0, 2⟩, xMsg, Severity.error, sourceTag⟩

/-- Witness for `c10_ranges` at a concrete parse. -/
theorem c10_ranges_witness : WithinDoc c10Doc c10Diag :=
  c10_ranges c10Out c10Doc (by decide) c10Diag (by decide)

end Veyra
